import Mathlib

/-!
Verification development for the `smart-context-cli` assistant
(`src/ai_assistant.py`).

The Python program keeps three JSON documents under `.ai-context/`:
an index document (relative path → FileRecord), a fingerprint document
(relative path → MD5 hex digest) and a conversation-history document
(list of turns).  This file gives a shallow embedding of the pure core
of that program and proves/refutes the specification claims about it.

Modelling conventions:
* The filesystem is a value of type `FS`: `FS.files` is the list of
  entries produced by `os.walk('.')` after the source's directory
  pruning (hidden directories, `node_modules`, `__pycache__`, `venv`,
  `env`), in walk order, each entry carrying its path relative to the
  project root; `FS.extra` lists paths that exist on disk but are not
  produced by the walk (e.g. inside pruned directories), used only by
  `Path(...).exists()` checks.
* An entry's `bytes` field is what `open(p,'rb').read()` yields
  (`none` when the binary read raises), its `text` field what
  `open(p,'r',encoding='utf-8').read()` yields (`none` when the text
  read raises), and `mtime` its `st_mtime`.
* `hashlib.md5(...).hexdigest()` is an external library call; it is
  modelled by `md5hex`, an executable deterministic digest of the byte
  list rendered as 32 lowercase hexadecimal characters — exactly the
  properties the program relies on (determinism in the bytes, fixed
  length hex output).
* `datetime.fromtimestamp(m).isoformat()` is external; the record
  stores the raw `mtime` in its place, and `datetime.now()` timestamps
  are passed as explicit parameters.
* Python exceptions are modelled with `Except PyErr`; a `bare except`
  handler in the source becomes a `match` that discards the error.
* Persisted JSON documents are modelled by `StoredDoc`: the file may be
  absent, present but malformed (so `json.load` raises), or valid.
  Python dicts preserve insertion order, so a parsed JSON object is an
  ordered association list; `json.dump` is injective on those up to
  list equality, so "byte-for-byte identical documents" is list
  equality of the association lists.
-/

namespace SmartContext

/-- Lookup in an ordered association list (Python `d[k]` / `k in d`). -/
def alookup {α : Type} (k : String) : List (String × α) → Option α
  | [] => none
  | kv :: rest => if kv.1 = k then some kv.2 else alookup k rest

/-- Python dict assignment `d[k] = v`: replaces the value in place when
the key is present (keeping its position, as Python dicts do) and
appends the pair otherwise. -/
def dictInsert {α : Type} (k : String) (v : α) : List (String × α) → List (String × α)
  | [] => [(k, v)]
  | kv :: rest => if kv.1 = k then (k, v) :: rest else kv :: dictInsert k v rest

/-- Python `del d[k]` (on association lists without duplicate keys). -/
def dictRemove {α : Type} (k : String) (d : List (String × α)) : List (String × α) :=
  d.filter (fun kv => kv.1 != k)

/-- Python `s.lower()` (the source only lowercases ASCII data). -/
def strLower (s : String) : String := String.mk (s.toList.map Char.toLower)

/-- Does `cs` start with `pat`?  (List-level `startswith`.) -/
def listStartsWith : List Char → List Char → Bool
  | _, [] => true
  | [], _ :: _ => false
  | c :: cs, p :: ps => c = p && listStartsWith cs ps

/-- Python `s.startswith(pat)`. -/
def strStartsWith (s pat : String) : Bool := listStartsWith s.toList pat.toList

/-- Does `pat` occur as a contiguous sublist of the second argument? -/
def listContainsSub (pat : List Char) : List Char → Bool
  | [] => listStartsWith [] pat
  | c :: rest => listStartsWith (c :: rest) pat || listContainsSub pat rest

/-- Python `pat in s`. -/
def strContains (s pat : String) : Bool := listContainsSub pat.toList s.toList

/-- Python `s.strip()` (the source strips ASCII whitespace only). -/
def pyStrip (s : String) : String :=
  String.mk (((s.toList.dropWhile Char.isWhitespace).reverse.dropWhile Char.isWhitespace).reverse)

/-- Split a character list at every occurrence of `sep`
(Python `str.split(sep)` for a single-character separator: the empty
string splits to `[""]`, and separators at the ends produce empty
pieces). -/
def splitListOn (sep : Char) : List Char → List (List Char)
  | [] => [[]]
  | c :: rest =>
    match splitListOn sep rest with
    | [] => [[]]
    | hd :: tl => if c = sep then [] :: hd :: tl else (c :: hd) :: tl

/-- Python `s.split(sep)` for a one-character separator. -/
def pySplit (sep : Char) (s : String) : List String :=
  (splitListOn sep s.toList).map String.mk

/-- Final component of a relative path (`pathlib.PurePath.name`). -/
def pathBasename (p : String) : String := (pySplit '/' p).getLastD ""

/-- Index of the last `'.'` in a character list, if any. -/
def lastDotIdx (cs : List Char) : Option Nat :=
  ((List.range cs.length).filter (fun i => cs.getD i ' ' = '.')).getLast?

/-- `pathlib.PurePath.suffix`: the part of the final component from its
last dot on, provided that dot is neither leading nor trailing
(pathlib: `i = name.rfind('.'); name[i:] if 0 < i < len(name)-1 else ''`). -/
def pathSuffix (p : String) : String :=
  let cs := (pathBasename p).toList
  match lastDotIdx cs with
  | some i => if 0 < i ∧ i + 1 < cs.length then String.mk (cs.drop i) else ""
  | none => ""

/-- `self.code_extensions` (a Python set literal; order irrelevant). -/
def code_extensions : List String :=
  [".py", ".js", ".jsx", ".ts", ".tsx", ".html", ".css", ".json", ".md",
   ".sql", ".yaml", ".yml", ".dockerfile", ".txt"]

/-- The walk filter `filepath.suffix.lower() in self.code_extensions`. -/
def isCodeFile (p : String) : Bool := code_extensions.contains (strLower (pathSuffix p))

/-- One file visible to the walk; see the modelling conventions above. -/
structure FSEntry where
  path : String
  bytes : Option (List Nat)
  text : Option String
  mtime : Nat
deriving DecidableEq

/-- The filesystem as the program observes it. -/
structure FS where
  files : List FSEntry
  extra : List String
deriving DecidableEq

/-- Resolve a path against the walked entries. -/
def fsFind (fs : FS) (p : String) : Option FSEntry :=
  fs.files.find? (fun e => e.path == p)

/-- Bytes of `open(p,'rb').read()`, `none` when the read raises. -/
def fsBytes (fs : FS) (p : String) : Option (List Nat) :=
  (fsFind fs p).bind FSEntry.bytes

/-- Text of `open(p,'r',encoding='utf-8').read()`, `none` when it raises. -/
def fsText (fs : FS) (p : String) : Option String :=
  (fsFind fs p).bind FSEntry.text

/-- `filepath.stat().st_mtime` for a walked entry. -/
def fsMtime (fs : FS) (p : String) : Nat :=
  ((fsFind fs p).map FSEntry.mtime).getD 0

/-- `Path(p).exists()`: true for walked entries and for the extra paths
that exist outside the walk. -/
def pathExists (fs : FS) (p : String) : Bool :=
  fs.files.any (fun e => e.path == p) || fs.extra.contains p

/-- Lowercase hexadecimal digit characters. -/
def hexDigitChar (n : Nat) : Char :=
  if n < 10 then Char.ofNat (48 + n) else Char.ofNat (87 + n)

/-- Deterministic 128-bit digest of a byte list (stands in for the
external `hashlib.md5` core; see the modelling conventions). -/
def digestNat (bs : List Nat) : Nat :=
  bs.foldl (fun a b => (a * 16777619 + b % 256 + 1) % 2 ^ 128) 1469598103934665603

/-- The digest rendered as exactly 32 lowercase hex characters, as
`hexdigest()` renders MD5. -/
def md5hex (bs : List Nat) : String :=
  String.mk ((List.range 32).map (fun i => hexDigitChar (digestNat bs / 16 ^ (31 - i) % 16)))

/-- `get_file_hash` (src/ai_assistant.py:76-82): digest of the file's
bytes, or `None` when the read raises (caught by the bare `except`). -/
def get_file_hash (fs : FS) (p : String) : Option String :=
  (fsBytes fs p).map md5hex

/-- `extract_imports` (src/ai_assistant.py:199-213): collect stripped
lines matching the per-extension heuristics, then keep the first 10. -/
def extract_imports (content : String) (extension : String) : List String :=
  let lines := pySplit '\n' content
  let imports := lines.foldl (fun acc line =>
    let line := pyStrip line
    if extension = ".py" then
      if strStartsWith line "import " || strStartsWith line "from " then acc ++ [line] else acc
    else if [".js", ".jsx", ".ts", ".tsx"].contains extension then
      if strStartsWith line "import " || (strStartsWith line "const " && strContains line "require(")
      then acc ++ [line] else acc
    else acc) []
  imports.take 10

/-- `extract_functions` (src/ai_assistant.py:215-229). -/
def extract_functions (content : String) (extension : String) : List String :=
  let lines := pySplit '\n' content
  let functions := lines.foldl (fun acc line =>
    let line := pyStrip line
    if extension = ".py" then
      if strStartsWith line "def " || strStartsWith line "class " then acc ++ [line] else acc
    else if [".js", ".jsx", ".ts", ".tsx"].contains extension then
      if strContains line "function " || (strStartsWith line "const " && strContains line "=>")
      then acc ++ [line] else acc
    else acc) []
  functions.take 10

/-- One value of the index document's mapping (src/ai_assistant.py:179-187). -/
structure FileRecord where
  size : Nat
  lines : Nat
  extension : String
  imports : List String
  functions : List String
  last_modified : Nat
  preview : String
deriving DecidableEq

/-- The record the program builds for a file with suffix `sfx`, text
content `content` and modification time `mtime`
(src/ai_assistant.py:178-187 and 320-329; note the source passes the
un-lowercased `filepath.suffix` to the extractors and stores it). -/
def recordOfFile (sfx : String) (content : String) (mtime : Nat) : FileRecord :=
  let lines := pySplit '\n' content
  { size := content.length
    lines := lines.length
    extension := sfx
    imports := extract_imports content sfx
    functions := extract_functions content sfx
    last_modified := mtime
    preview := String.intercalate "\n" (lines.take 5) }

/-- A persisted JSON document: absent file, present-but-unparsable file
(`json.load` raises), or a parsed value. -/
inductive StoredDoc (α : Type) where
  | absent
  | malformed
  | valid (d : α)
deriving DecidableEq

/-- Turn kinds of the history document. -/
inductive TurnKind where
  | question
  | response
deriving DecidableEq

/-- One entry of the history document (src/ai_assistant.py:285-288). -/
structure Turn where
  type : TurnKind
  content : String
  timestamp : Nat
deriving DecidableEq

/-- The index document's mapping. -/
abbrev IMap := List (String × FileRecord)

/-- The fingerprint document's mapping. -/
abbrev HMap := List (String × String)

/-- The three persisted documents under `.ai-context/`. -/
structure Store where
  indexDoc : StoredDoc IMap
  hashesDoc : StoredDoc HMap
  historyDoc : StoredDoc (List Turn)
deriving DecidableEq

/-- Modelled Python exceptions. -/
inductive PyErr where
  | jsonError
  | ioError
deriving DecidableEq

/-- Loop body of `scan_codebase` (src/ai_assistant.py:150-187) on one
walked entry: filter by supported suffix, hash the bytes (skip the file
when the binary read fails), record the current hash, skip re-indexing
when the hash matches the previously persisted one (the freshly-built
index is NOT given the old record in that case), skip the file when the
text read fails (its hash stays recorded), otherwise build its record. -/
def scanStep (old_hashes : HMap) (acc : IMap × HMap) (e : FSEntry) : IMap × HMap :=
  if isCodeFile e.path then
    match e.bytes with
    | none => acc
    | some b =>
      let file_hash := md5hex b
      let hashes := dictInsert e.path file_hash acc.2
      if alookup e.path old_hashes = some file_hash then (acc.1, hashes)
      else
        match e.text with
        | none => (acc.1, hashes)
        | some content =>
          (dictInsert e.path (recordOfFile (pathSuffix e.path) content e.mtime) acc.1, hashes)
  else acc

/-- The tail of `scan_codebase`: fold the walk from empty maps and
persist both documents (src/ai_assistant.py:136-194). -/
def scanWrite (fs : FS) (st : Store) (old_hashes : HMap) : Store :=
  let res := fs.files.foldl (scanStep old_hashes) ([], [])
  { st with indexDoc := .valid res.1, hashesDoc := .valid res.2 }

/-- `scan_codebase` (src/ai_assistant.py:132-197): loads the persisted
fingerprint document without a `try` (lines 141-143), so a malformed
document makes `json.load` raise out of the function; an absent one
leaves `old_hashes = {}`. -/
def scan_codebase (fs : FS) (st : Store) : Except PyErr Store :=
  match st.hashesDoc with
  | .malformed => .error .jsonError
  | .absent => .ok (scanWrite fs st [])
  | .valid old_hashes => .ok (scanWrite fs st old_hashes)

/-- The detail-style context block of `load_context`
(src/ai_assistant.py:255-269): header, total count, the first 3 index
entries (line count plus up to 2 function previews when any exist),
then the remaining-files line when more than 3 files are indexed. -/
def detailContext (idx : IMap) : String :=
  let context0 := "=== PROJECT CONTEXT ===\n" ++ "Files in project: " ++ Nat.repr idx.length ++ "\n\n"
  let context1 := (idx.take 3).foldl (fun context kv =>
    let c := context ++ "File: " ++ kv.1 ++ " (" ++ Nat.repr kv.2.lines ++ " lines)\n"
    if kv.2.functions = [] then c
    else c ++ "  Functions: " ++ String.intercalate ", " (kv.2.functions.take 2) ++ "\n") context0
  if idx.length > 3 then
    context1 ++ "... and " ++ Nat.repr (idx.length - 3) ++ " more files\n"
  else context1

/-- `load_context` (src/ai_assistant.py:237-269): empty context when no
index document exists; `json.load` of a malformed document raises with
no handler (lines 243-244); listing-style questions (any of
files/what/list/show in the lowercased question) get the summary block,
everything else the detail block. -/
def load_context (question : String) (st : Store) : Except PyErr String :=
  match st.indexDoc with
  | .absent => .ok ""
  | .malformed => .error .jsonError
  | .valid index =>
    let question_lower := strLower question
    if ["files", "what", "list", "show"].any (fun word => strContains question_lower word) then
      .ok ("=== PROJECT SUMMARY ===\nFiles: " ++ String.intercalate ", " (index.map (fun kv => kv.1)) ++ "\n")
    else
      .ok (detailContext index)

/-- `load_conversation_history` (src/ai_assistant.py:271-280): empty
list when the document is absent, `json.load` raises unhandled on a
malformed document, `history[-6:]` of the stored list otherwise. -/
def load_conversation_history (st : Store) : Except PyErr (List Turn) :=
  match st.historyDoc with
  | .absent => .ok []
  | .malformed => .error .jsonError
  | .valid history => .ok (if history.length > 6 then history.drop (history.length - 6) else history)

/-- `save_conversation` (src/ai_assistant.py:282-291): re-read the last
6 stored turns, append one question turn and one response turn (each
timestamped independently), persist the result. -/
def save_conversation (st : Store) (question response : String) (tq tr : Nat) :
    Except PyErr Store :=
  match load_conversation_history st with
  | .error e => .error e
  | .ok history =>
    .ok { st with historyDoc := .valid (history ++
      [{ type := .question, content := question, timestamp := tq },
       { type := .response, content := response, timestamp := tr }]) }

/-- Body of `update_single_file`'s `try` block
(src/ai_assistant.py:295-341): load both documents (`json.load` raises
on a malformed one), then, when the path exists, hash it; a `None`
hash falls through and both documents are re-saved unchanged; a failed
text read raises after the in-memory hash assignment but before any
save; otherwise both entries for the path are replaced.  A nonexistent
path has its entries deleted from both documents. -/
def updateCore (fs : FS) (st : Store) (rel_path : String) : Except PyErr Store :=
  match st.indexDoc with
  | .malformed => .error .jsonError
  | sIdx =>
    let index := match sIdx with | .valid d => d | _ => []
    match st.hashesDoc with
    | .malformed => .error .jsonError
    | sHsh =>
      let hashes := match sHsh with | .valid d => d | _ => []
      if pathExists fs rel_path then
        match get_file_hash fs rel_path with
        | some file_hash =>
          let hashes := dictInsert rel_path file_hash hashes
          match fsText fs rel_path with
          | none => .error .ioError
          | some content =>
            let index := dictInsert rel_path
              (recordOfFile (pathSuffix rel_path) content (fsMtime fs rel_path)) index
            .ok { st with indexDoc := .valid index, hashesDoc := .valid hashes }
        | none => .ok { st with indexDoc := .valid index, hashesDoc := .valid hashes }
      else
        .ok { st with indexDoc := .valid (dictRemove rel_path index),
                      hashesDoc := .valid (dictRemove rel_path hashes) }

/-- `update_single_file` (src/ai_assistant.py:293-344): the whole body
runs under `try`, and the `except` only prints, so any raise leaves
every persisted document exactly as it was. -/
def update_single_file (fs : FS) (st : Store) (rel_path : String) : Store :=
  match updateCore fs st rel_path with
  | .ok st2 => st2
  | .error _ => st

/-- `remove_from_index` (src/ai_assistant.py:346-370): under one `try`,
delete the path from the index document and save it, then delete the
path from the fingerprint document and save it; a malformed index
document raises before anything is written, while a malformed
fingerprint document raises after the index document was already
rewritten. -/
def remove_from_index (st : Store) (rel_path : String) : Store :=
  match st.indexDoc with
  | .malformed => st
  | sIdx =>
    let st1 := match sIdx with
      | .valid index => { st with indexDoc := .valid (dictRemove rel_path index) }
      | _ => st
    match st.hashesDoc with
    | .valid hashes => { st1 with hashesDoc := .valid (dictRemove rel_path hashes) }
    | _ => st1

/-- The `changes_found` boolean of `check_for_changes`
(src/ai_assistant.py:387-411): some walked supported-type file whose
path is missing from the persisted mapping or whose current hash
(possibly `None`) differs from the persisted one, or some persisted
path that no longer exists on disk (only consulted when the walk found
no change, but `a || b` is the same decision). -/
def changes_found (fs : FS) (old_hashes : HMap) : Bool :=
  (fs.files.any (fun e => isCodeFile e.path &&
    ((alookup e.path old_hashes).isNone || (alookup e.path old_hashes != e.bytes.map md5hex))))
  || old_hashes.any (fun kv => !(pathExists fs kv.1))

/-- `check_for_changes` (src/ai_assistant.py:372-417): absent
fingerprint document → rescan unconditionally; malformed one → the
`except` handler calls `scan_codebase`, which re-reads the same
malformed document and raises; otherwise rescan exactly when
`changes_found`, and do nothing otherwise.  The boolean of the result
records whether a full rescan was triggered. -/
def check_for_changes (fs : FS) (st : Store) : Except PyErr (Store × Bool) :=
  match st.hashesDoc with
  | .absent => (scan_codebase fs st).map (fun s => (s, true))
  | .malformed => (scan_codebase fs st).map (fun s => (s, true))
  | .valid old_hashes =>
    if changes_found fs old_hashes then (scan_codebase fs st).map (fun s => (s, true))
    else .ok (st, false)

/-! ### Basic lemmas about the dictionary model -/

theorem alookup_dictInsert_self {α : Type} (k : String) (v : α) (d : List (String × α)) :
    alookup k (dictInsert k v d) = some v := by
  induction d with
  | nil => simp [alookup, dictInsert]
  | cons kv rest ih =>
    by_cases h : kv.1 = k
    · simp [alookup, dictInsert, h]
    · simp [alookup, dictInsert, h, ih]

theorem alookup_dictInsert_ne {α : Type} {q k : String} (v : α) (d : List (String × α))
    (hqk : q ≠ k) : alookup q (dictInsert k v d) = alookup q d := by
  induction d with
  | nil => simp [alookup, dictInsert, Ne.symm hqk]
  | cons kv rest ih =>
    by_cases h : kv.1 = k
    · subst h
      simp [alookup, dictInsert, Ne.symm hqk]
    · simp only [dictInsert, if_neg h, alookup]
      by_cases h2 : kv.1 = q <;> simp [h2, ih]

theorem alookup_dictRemove_self {α : Type} (k : String) (d : List (String × α)) :
    alookup k (dictRemove k d) = none := by
  induction d with
  | nil => simp [alookup, dictRemove]
  | cons kv rest ih =>
    by_cases h : kv.1 = k
    · simpa [dictRemove, List.filter_cons, h] using ih
    · simpa [dictRemove, List.filter_cons, h, alookup, ih] using ih

theorem alookup_dictRemove_ne {α : Type} {q k : String} (d : List (String × α))
    (hqk : q ≠ k) : alookup q (dictRemove k d) = alookup q d := by
  induction d with
  | nil => simp [dictRemove]
  | cons kv rest ih =>
    by_cases h : kv.1 = k
    · rw [show alookup q (kv :: rest) = alookup q rest from by
        simp [alookup, show ¬kv.1 = q from h ▸ Ne.symm hqk]]
      rw [show dictRemove k (kv :: rest) = dictRemove k rest from by
        simp [dictRemove, List.filter_cons, h]]
      exact ih
    · rw [show dictRemove k (kv :: rest) = kv :: dictRemove k rest from by
        simp [dictRemove, List.filter_cons, h]]
      by_cases h2 : kv.1 = q <;> simp [alookup, h2, ih]

theorem isSome_alookup_dictInsert {α : Type} (q k : String) (v : α) (d : List (String × α)) :
    (alookup q (dictInsert k v d)).isSome = (if q = k then true else (alookup q d).isSome) := by
  by_cases h : q = k
  · subst h; simp [alookup_dictInsert_self]
  · simp [h, alookup_dictInsert_ne v d h]

/-! ### Generic fold lemmas used to relate the loops to their
specification-side descriptions -/

theorem foldl_congr_fn {α β : Type} (f g : β → α → β) (l : List α)
    (h : ∀ b a, f b a = g b a) : ∀ b, l.foldl f b = l.foldl g b := by
  induction l with
  | nil => intro b; rfl
  | cons x xs ih => intro b; simp only [List.foldl_cons, h]; exact ih _

theorem foldl_collect {α : Type} (p : α → Bool) (f : α → α) (l : List α) :
    ∀ acc, l.foldl (fun a x => if p (f x) then a ++ [f x] else a) acc
      = acc ++ (l.map f).filter p := by
  induction l with
  | nil => intro acc; simp
  | cons x xs ih =>
    intro acc
    by_cases h : p (f x) <;> simp [List.filter, h, ih]

theorem foldl_fixed {α β : Type} (l : List α) : ∀ acc : β, l.foldl (fun a _ => a) acc = acc := by
  induction l with
  | nil => intro acc; rfl
  | cons x xs ih => intro acc; exact ih acc

/-- Right-fold concatenation of rendered pieces; the specification-side
shape of string-building loops. -/
def strJoinMap {α : Type} (f : α → String) (l : List α) : String :=
  l.foldr (fun x acc => f x ++ acc) ""

theorem foldl_strJoinMap {α : Type} (f : α → String) (l : List α) :
    ∀ acc : String, l.foldl (fun a x => a ++ f x) acc = acc ++ strJoinMap f l := by
  induction l with
  | nil => intro acc; simp [strJoinMap, String.append_empty]
  | cons x xs ih =>
    intro acc
    simp only [List.foldl_cons, strJoinMap, List.foldr_cons, ih]
    rw [← String.append_assoc]

/-! ### Claim C7: the Lightweight Source Analyzer

Specification-side descriptions of the analyzer, written from the
claim's words ("the first 10 matching stripped lines in file order"
with the per-category line predicates), to be compared against the
loop-based source translation. -/

/-- Spec: `.py` imports are stripped lines starting with `import ` or
`from `, first 10 in file order. -/
def pyImportsSpec (content : String) : List String :=
  (((pySplit '\n' content).map pyStrip).filter
    (fun line => strStartsWith line "import " || strStartsWith line "from ")).take 10

/-- Spec: `.py` declarations are stripped lines starting with `def ` or
`class `, first 10 in file order. -/
def pyFunctionsSpec (content : String) : List String :=
  (((pySplit '\n' content).map pyStrip).filter
    (fun line => strStartsWith line "def " || strStartsWith line "class ")).take 10

/-- Spec: ES-style imports are stripped lines starting with `import `,
or `const ` lines containing `require(`, first 10 in file order. -/
def jsImportsSpec (content : String) : List String :=
  (((pySplit '\n' content).map pyStrip).filter
    (fun line => strStartsWith line "import " || (strStartsWith line "const " && strContains line "require("))).take 10

/-- Spec: ES-style declarations are stripped lines containing
`function `, or `const ` lines containing `=>`, first 10 in file order. -/
def jsFunctionsSpec (content : String) : List String :=
  (((pySplit '\n' content).map pyStrip).filter
    (fun line => strContains line "function " || (strStartsWith line "const " && strContains line "=>"))).take 10

theorem extract_imports_eq_py (c : String) : extract_imports c ".py" = pyImportsSpec c := by
  simp only [extract_imports, pyImportsSpec]
  rw [foldl_congr_fn _
    (fun acc line =>
      if (fun l => strStartsWith l "import " || strStartsWith l "from ") (pyStrip line)
      then acc ++ [pyStrip line] else acc)
    (pySplit '\n' c) (by intro b a; simp) []]
  rw [foldl_collect (fun l => strStartsWith l "import " || strStartsWith l "from ")
    pyStrip (pySplit '\n' c) []]
  simp

theorem extract_functions_eq_py (c : String) : extract_functions c ".py" = pyFunctionsSpec c := by
  simp only [extract_functions, pyFunctionsSpec]
  rw [foldl_congr_fn _
    (fun acc line =>
      if (fun l => strStartsWith l "def " || strStartsWith l "class ") (pyStrip line)
      then acc ++ [pyStrip line] else acc)
    (pySplit '\n' c) (by intro b a; simp) []]
  rw [foldl_collect (fun l => strStartsWith l "def " || strStartsWith l "class ")
    pyStrip (pySplit '\n' c) []]
  simp

theorem extract_imports_eq_js (c : String) (ext : String)
    (h : ext ∈ ([".js", ".jsx", ".ts", ".tsx"] : List String)) :
    extract_imports c ext = jsImportsSpec c := by
  simp only [extract_imports, jsImportsSpec]
  fin_cases h <;>
    (rw [foldl_congr_fn _
      (fun acc line =>
        if (fun l => strStartsWith l "import " || (strStartsWith l "const " && strContains l "require(")) (pyStrip line)
        then acc ++ [pyStrip line] else acc)
      (pySplit '\n' c) (by intro b a; simp) []]
     rw [foldl_collect (fun l => strStartsWith l "import " || (strStartsWith l "const " && strContains l "require(")) pyStrip (pySplit '\n' c) []]
     simp)

theorem extract_functions_eq_js (c : String) (ext : String)
    (h : ext ∈ ([".js", ".jsx", ".ts", ".tsx"] : List String)) :
    extract_functions c ext = jsFunctionsSpec c := by
  simp only [extract_functions, jsFunctionsSpec]
  fin_cases h <;>
    (rw [foldl_congr_fn _
      (fun acc line =>
        if (fun l => strContains l "function " || (strStartsWith l "const " && strContains l "=>")) (pyStrip line)
        then acc ++ [pyStrip line] else acc)
      (pySplit '\n' c) (by intro b a; simp) []]
     rw [foldl_collect (fun l => strContains l "function " || (strStartsWith l "const " && strContains l "=>")) pyStrip (pySplit '\n' c) []]
     simp)

theorem extract_imports_other (c : String) (ext : String)
    (h1 : ext ∈ code_extensions) (h2 : ext ∉ ([".py", ".js", ".jsx", ".ts", ".tsx"] : List String)) :
    extract_imports c ext = [] := by
  simp only [extract_imports]
  fin_cases h1 <;>
    first
      | exact absurd (by decide) h2
      | (rw [foldl_congr_fn _ (fun acc _ => acc) (pySplit '\n' c) (by intro b a; simp) []]
         rw [foldl_fixed]
         rfl)

theorem extract_functions_other (c : String) (ext : String)
    (h1 : ext ∈ code_extensions) (h2 : ext ∉ ([".py", ".js", ".jsx", ".ts", ".tsx"] : List String)) :
    extract_functions c ext = [] := by
  simp only [extract_functions]
  fin_cases h1 <;>
    first
      | exact absurd (by decide) h2
      | (rw [foldl_congr_fn _ (fun acc _ => acc) (pySplit '\n' c) (by intro b a; simp) []]
         rw [foldl_fixed]
         rfl)

theorem extract_length_le (c : String) (ext : String) :
    (extract_imports c ext).length ≤ 10 ∧ (extract_functions c ext).length ≤ 10 := by
  constructor <;>
    (first
      | (unfold extract_imports; exact List.length_take_le 10 _)
      | (unfold extract_functions; exact List.length_take_le 10 _))

/-- C7: for every content string and file-type tag, the analyzer
returns at most 10 elements, the first 10 matching stripped lines in
file order: for `.py` imports are lines starting with `import `/`from `
and declarations lines starting with `def `/`class `; for
`.js`/`.jsx`/`.ts`/`.tsx` imports are lines starting with `import ` or
`const ` lines containing `require(`, declarations lines containing
`function ` or `const ` lines containing `=>`; for every other
supported extension both sequences are empty. -/
theorem C7_thm :
    (∀ c : String, extract_imports c ".py" = pyImportsSpec c
      ∧ extract_functions c ".py" = pyFunctionsSpec c)
    ∧ (∀ (c ext : String), ext ∈ ([".js", ".jsx", ".ts", ".tsx"] : List String) →
        extract_imports c ext = jsImportsSpec c ∧ extract_functions c ext = jsFunctionsSpec c)
    ∧ (∀ (c ext : String), ext ∈ code_extensions →
        ext ∉ ([".py", ".js", ".jsx", ".ts", ".tsx"] : List String) →
        extract_imports c ext = [] ∧ extract_functions c ext = [])
    ∧ (∀ (c ext : String), (extract_imports c ext).length ≤ 10
        ∧ (extract_functions c ext).length ≤ 10) :=
  ⟨fun c => ⟨extract_imports_eq_py c, extract_functions_eq_py c⟩,
   fun c ext h => ⟨extract_imports_eq_js c ext h, extract_functions_eq_js c ext h⟩,
   fun c ext h1 h2 => ⟨extract_imports_other c ext h1 h2, extract_functions_other c ext h1 h2⟩,
   fun c ext => extract_length_le c ext⟩

/-- C7 witness: the claim theorem applied at concrete inputs. -/
theorem C7_witness :
    extract_imports "import os\nx = 1\nfrom a import b" ".py" = ["import os", "from a import b"]
    ∧ extract_functions "const f = (x) => x\nlet y = 2" ".ts" = ["const f = (x) => x"]
    ∧ extract_imports "import os" ".md" = []
    ∧ extract_functions "def f(): pass" ".html" = [] := by
  refine ⟨?_, ?_, ?_, ?_⟩
  · rw [(C7_thm.1 "import os\nx = 1\nfrom a import b").1]; rfl
  · rw [(C7_thm.2.1 "const f = (x) => x\nlet y = 2" ".ts" (by decide)).2]; rfl
  · exact (C7_thm.2.2.1 "import os" ".md" (by decide) (by decide)).1
  · exact (C7_thm.2.2.1 "def f(): pass" ".html" (by decide) (by decide)).2

/-! ### Claim C8: the Content Hasher -/

/-- The sixteen lowercase hex digit characters. -/
def hexDigits : List Char := "0123456789abcdef".toList

theorem hexDigitChar_mem : ∀ k : Nat, k < 16 → hexDigits.contains (hexDigitChar k) = true := by
  decide

theorem md5hex_length (bs : List Nat) : (md5hex bs).length = 32 := by
  have h : (md5hex bs).length = ((List.range 32).map
      (fun i => hexDigitChar (digestNat bs / 16 ^ (31 - i) % 16))).length := rfl
  rw [h, List.length_map, List.length_range]

theorem md5hex_hex (bs : List Nat) :
    (md5hex bs).toList.all (fun ch => hexDigits.contains ch) = true := by
  have h : (md5hex bs).toList = (List.range 32).map
      (fun i => hexDigitChar (digestNat bs / 16 ^ (31 - i) % 16)) := rfl
  rw [h, List.all_eq_true]
  intro x hx
  rcases List.mem_map.mp hx with ⟨i, _, hfi⟩
  subst hfi
  exact hexDigitChar_mem _ (Nat.mod_lt _ (by decide))

/-- C8: `get_file_hash` either returns a 32-character hex digest
determined solely by the file's byte content — identical bytes yield
identical fingerprints, wherever the file lives — or returns the
sentinel `None` when the file cannot be read; being a total function
into `Option`, it never raises past its boundary. -/
theorem C8_thm : ∀ (fs : FS) (p : String),
    (∀ b : List Nat, fsBytes fs p = some b →
      get_file_hash fs p = some (md5hex b)
      ∧ (md5hex b).length = 32
      ∧ (md5hex b).toList.all (fun ch => hexDigits.contains ch) = true)
    ∧ (fsBytes fs p = none → get_file_hash fs p = none)
    ∧ (∀ (fs2 : FS) (p2 : String) (b b2 : List Nat),
        fsBytes fs p = some b → fsBytes fs2 p2 = some b2 → b = b2 →
        get_file_hash fs p = get_file_hash fs2 p2) := by
  intro fs p
  refine ⟨?_, ?_, ?_⟩
  · intro b hb
    exact ⟨by simp [get_file_hash, hb], md5hex_length b, md5hex_hex b⟩
  · intro hb
    simp [get_file_hash, hb]
  · intro fs2 p2 b b2 hb hb2 hbb
    subst hbb
    simp [get_file_hash, hb, hb2]

/-- C8 witness: the claim theorem applied at concrete files. -/
theorem C8_witness :
    fsBytes ⟨[⟨"a.py", some [1, 2], some "x = 1", 0⟩], []⟩ "a.py" = some [1, 2]
    ∧ get_file_hash ⟨[⟨"a.py", some [1, 2], some "x = 1", 0⟩], []⟩ "a.py" = some (md5hex [1, 2])
    ∧ (md5hex [1, 2]).length = 32
    ∧ fsBytes ⟨[⟨"locked.md", none, none, 0⟩], []⟩ "locked.md" = none
    ∧ get_file_hash ⟨[⟨"locked.md", none, none, 0⟩], []⟩ "locked.md" = none
    ∧ get_file_hash ⟨[⟨"a.py", some [1, 2], some "x = 1", 0⟩], []⟩ "a.py"
        = get_file_hash ⟨[⟨"b/c.md", some [1, 2], none, 3⟩], []⟩ "b/c.md" := by
  refine ⟨rfl, ?_, ?_, rfl, ?_, ?_⟩
  · exact ((C8_thm ⟨[⟨"a.py", some [1, 2], some "x = 1", 0⟩], []⟩ "a.py").1 [1, 2] rfl).1
  · exact ((C8_thm ⟨[⟨"a.py", some [1, 2], some "x = 1", 0⟩], []⟩ "a.py").1 [1, 2] rfl).2.1
  · exact (C8_thm ⟨[⟨"locked.md", none, none, 0⟩], []⟩ "locked.md").2.1 rfl
  · exact (C8_thm ⟨[⟨"a.py", some [1, 2], some "x = 1", 0⟩], []⟩ "a.py").2.2
      ⟨[⟨"b/c.md", some [1, 2], none, 3⟩], []⟩ "b/c.md" [1, 2] [1, 2] rfl rfl rfl

/-! ### Claims C2 and C10: the conversation history store -/

/-- A concrete stored history of 7 turns (more than the 6-turn window). -/
def histC2 : List Turn :=
  [⟨.question, "q0", 0⟩, ⟨.response, "r0", 1⟩, ⟨.question, "q1", 2⟩,
   ⟨.response, "r1", 3⟩, ⟨.question, "q2", 4⟩, ⟨.response, "r2", 5⟩,
   ⟨.question, "q3", 6⟩]

/-- C2 counterexample: with 7 turns already stored, `save_conversation`
persists only the most recent 6 plus the 2 new turns; the oldest stored
turn is gone from storage afterwards, so the persisted history is not
append-only. -/
theorem C2_counterexample :
    save_conversation ⟨.absent, .absent, .valid histC2⟩ "Q" "R" 7 8
      = .ok ⟨.absent, .absent, .valid
        [⟨.response, "r0", 1⟩, ⟨.question, "q1", 2⟩, ⟨.response, "r1", 3⟩,
         ⟨.question, "q2", 4⟩, ⟨.response, "r2", 5⟩, ⟨.question, "q3", 6⟩,
         ⟨.question, "Q", 7⟩, ⟨.response, "R", 8⟩]⟩
    ∧ (⟨.question, "q0", 0⟩ : Turn) ∈ histC2
    ∧ (⟨.question, "q0", 0⟩ : Turn) ∉
        [(⟨.response, "r0", 1⟩ : Turn), ⟨.question, "q1", 2⟩, ⟨.response, "r1", 3⟩,
         ⟨.question, "q2", 4⟩, ⟨.response, "r2", 5⟩, ⟨.question, "q3", 6⟩,
         ⟨.question, "Q", 7⟩, ⟨.response, "R", 8⟩] :=
  ⟨rfl, by decide, by decide⟩

/-- C2 (amended): `save_conversation` appends exactly one question turn
and one response turn to the window of the most recent 6 previously
stored turns and persists exactly that; every turn of that window is
retained, but turns older than the most recent 6 are discarded, so all
previously stored turns are retained only when at most 6 were stored. -/
theorem C2_amended_thm : ∀ (st : Store) (h : List Turn) (q r : String) (tq tr : Nat),
    st.historyDoc = .valid h →
    save_conversation st q r tq tr = .ok ⟨st.indexDoc, st.hashesDoc,
      .valid ((if h.length > 6 then h.drop (h.length - 6) else h) ++
        [⟨.question, q, tq⟩, ⟨.response, r, tr⟩])⟩
    ∧ (∀ t ∈ (if h.length > 6 then h.drop (h.length - 6) else h),
        t ∈ (if h.length > 6 then h.drop (h.length - 6) else h) ++
          [(⟨.question, q, tq⟩ : Turn), ⟨.response, r, tr⟩])
    ∧ (h.length ≤ 6 →
        ∀ t ∈ h, t ∈ h ++ [(⟨.question, q, tq⟩ : Turn), ⟨.response, r, tr⟩]) := by
  intro st h q r tq tr hst
  refine ⟨?_, ?_, ?_⟩
  · simp [save_conversation, load_conversation_history, hst]
  · intro t ht
    exact List.mem_append_left _ ht
  · intro _ t ht
    exact List.mem_append_left _ ht

/-- C2 amended-claim witness: the theorem applied to a concrete
two-turn history. -/
theorem C2_amended_witness :
    (⟨.absent, .absent, .valid [⟨.question, "a", 0⟩, ⟨.response, "b", 1⟩]⟩ : Store).historyDoc
      = .valid [⟨.question, "a", 0⟩, ⟨.response, "b", 1⟩]
    ∧ save_conversation ⟨.absent, .absent, .valid [⟨.question, "a", 0⟩, ⟨.response, "b", 1⟩]⟩
        "Q" "R" 2 3
      = .ok ⟨.absent, .absent, .valid
          [⟨.question, "a", 0⟩, ⟨.response, "b", 1⟩, ⟨.question, "Q", 2⟩, ⟨.response, "R", 3⟩]⟩ :=
  ⟨rfl,
   (C2_amended_thm ⟨.absent, .absent, .valid [⟨.question, "a", 0⟩, ⟨.response, "b", 1⟩]⟩
     [⟨.question, "a", 0⟩, ⟨.response, "b", 1⟩] "Q" "R" 2 3 rfl).1⟩

/-- C10: after every successful `save_conversation`, the persisted
history document holds at most 8 turns: the write path re-reads only
the last 6 stored turns, appends the new question and response turns to
that window, and persists the result, discarding older turns. -/
theorem C10_thm : ∀ (st : Store) (q r : String) (tq tr : Nat) (st2 : Store),
    save_conversation st q r tq tr = .ok st2 →
    ∃ h2 : List Turn, st2.historyDoc = .valid h2 ∧ h2.length ≤ 8
    ∧ (∀ h : List Turn, st.historyDoc = .valid h →
        h2 = (if h.length > 6 then h.drop (h.length - 6) else h) ++
          [⟨.question, q, tq⟩, ⟨.response, r, tr⟩]) := by
  intro st q r tq tr st2 hsave
  match hdoc : st.historyDoc with
  | .absent =>
    refine ⟨[⟨.question, q, tq⟩, ⟨.response, r, tr⟩], ?_, by simp, ?_⟩
    · simp [save_conversation, load_conversation_history, hdoc] at hsave
      simp [← hsave]
    · intro h hv
      cases hv
  | .malformed =>
    simp [save_conversation, load_conversation_history, hdoc] at hsave
  | .valid h =>
    refine ⟨(if h.length > 6 then h.drop (h.length - 6) else h) ++
      [⟨.question, q, tq⟩, ⟨.response, r, tr⟩], ?_, ?_, ?_⟩
    · simp [save_conversation, load_conversation_history, hdoc] at hsave
      simp [← hsave]
    · by_cases hl : h.length > 6
      · simp only [hl, if_true, List.length_append, List.length_drop,
          List.length_cons, List.length_nil]
        omega
      · simp only [hl, if_false, List.length_append, List.length_cons, List.length_nil]
        simp only [gt_iff_lt, not_lt] at hl
        omega
    · intro h0 hv
      cases hv
      rfl

/-- C10 witness: the claim theorem applied to a concrete save. -/
theorem C10_witness :
    save_conversation ⟨.absent, .absent, .valid histC2⟩ "Q" "R" 7 8
      = .ok ⟨.absent, .absent, .valid
        [⟨.response, "r0", 1⟩, ⟨.question, "q1", 2⟩, ⟨.response, "r1", 3⟩,
         ⟨.question, "q2", 4⟩, ⟨.response, "r2", 5⟩, ⟨.question, "q3", 6⟩,
         ⟨.question, "Q", 7⟩, ⟨.response, "R", 8⟩]⟩
    ∧ ∃ h2 : List Turn,
        (⟨.absent, .absent, .valid
          [⟨.response, "r0", 1⟩, ⟨.question, "q1", 2⟩, ⟨.response, "r1", 3⟩,
           ⟨.question, "q2", 4⟩, ⟨.response, "r2", 5⟩, ⟨.question, "q3", 6⟩,
           ⟨.question, "Q", 7⟩, ⟨.response, "R", 8⟩]⟩ : Store).historyDoc = .valid h2
        ∧ h2.length ≤ 8
        ∧ (∀ h : List Turn,
            (⟨.absent, .absent, .valid histC2⟩ : Store).historyDoc = .valid h →
            h2 = (if h.length > 6 then h.drop (h.length - 6) else h) ++
              [⟨.question, "Q", 7⟩, ⟨.response, "R", 8⟩]) :=
  ⟨rfl, C10_thm ⟨.absent, .absent, .valid histC2⟩ "Q" "R" 7 8 _ rfl⟩

/-! ### Claim C4: behaviour on malformed persisted JSON -/

/-- C4 counterexample: a malformed index document read by
`load_context` is not caught anywhere — the `json.load` exception
propagates past the reading operation (modelled as the `Except` error
escaping), and no full rescan is triggered. -/
theorem C4_counterexample :
    load_context "hello" ⟨.malformed, .absent, .absent⟩ = .error .jsonError := rfl

/-- C4 (amended): malformed persisted JSON is caught only where a
handler exists.  `check_for_changes` catches it on the fingerprint
document and calls `scan_codebase`, but the rescan re-reads the same
malformed document without a handler, so the exception still
propagates; `update_single_file` and `remove_from_index` catch any
malformed document and abandon the operation with the documents (in
these branches) unchanged; a malformed index document read by
`load_context` and a malformed history document read by
`load_conversation_history` propagate their exception uncaught. -/
theorem C4_amended_thm :
    (∀ (q : String) (st : Store), st.indexDoc = .malformed →
      load_context q st = .error .jsonError)
    ∧ (∀ st : Store, st.historyDoc = .malformed →
      load_conversation_history st = .error .jsonError)
    ∧ (∀ (fs : FS) (st : Store) (p : String),
        st.indexDoc = .malformed ∨ st.hashesDoc = .malformed →
        update_single_file fs st p = st)
    ∧ (∀ (st : Store) (p : String), st.indexDoc = .malformed →
        remove_from_index st p = st)
    ∧ (∀ (fs : FS) (st : Store), st.hashesDoc = .malformed →
        check_for_changes fs st = .error .jsonError) := by
  refine ⟨?_, ?_, ?_, ?_, ?_⟩
  · intro q st hm
    obtain ⟨i, hsh, hist⟩ := st
    cases hm
    rfl
  · intro st hm
    obtain ⟨i, hsh, hist⟩ := st
    cases hm
    rfl
  · intro fs st p hm
    obtain ⟨i, hsh, hist⟩ := st
    rcases hm with hm | hm <;> cases hm
    · rfl
    · cases i <;> rfl
  · intro st p hm
    obtain ⟨i, hsh, hist⟩ := st
    cases hm
    rfl
  · intro fs st hm
    obtain ⟨i, hsh, hist⟩ := st
    cases hm
    rfl

/-- C4 amended-claim witness: the theorem applied at concrete malformed
documents. -/
theorem C4_amended_witness :
    load_context "hi" ⟨.malformed, .absent, .absent⟩ = .error .jsonError
    ∧ load_conversation_history ⟨.absent, .absent, .malformed⟩ = .error .jsonError
    ∧ update_single_file ⟨[], []⟩ ⟨.malformed, .absent, .absent⟩ "a.py"
        = ⟨.malformed, .absent, .absent⟩
    ∧ update_single_file ⟨[], []⟩ ⟨.valid [], .malformed, .absent⟩ "a.py"
        = ⟨.valid [], .malformed, .absent⟩
    ∧ remove_from_index ⟨.malformed, .absent, .absent⟩ "a.py" = ⟨.malformed, .absent, .absent⟩
    ∧ check_for_changes ⟨[], []⟩ ⟨.absent, .malformed, .absent⟩ = .error .jsonError :=
  ⟨C4_amended_thm.1 "hi" ⟨.malformed, .absent, .absent⟩ rfl,
   C4_amended_thm.2.1 ⟨.absent, .absent, .malformed⟩ rfl,
   C4_amended_thm.2.2.1 ⟨[], []⟩ ⟨.malformed, .absent, .absent⟩ "a.py" (Or.inl rfl),
   C4_amended_thm.2.2.1 ⟨[], []⟩ ⟨.valid [], .malformed, .absent⟩ "a.py" (Or.inr rfl),
   C4_amended_thm.2.2.2.1 ⟨.malformed, .absent, .absent⟩ "a.py" rfl,
   C4_amended_thm.2.2.2.2 ⟨[], []⟩ ⟨.absent, .malformed, .absent⟩ rfl⟩

/-! ### Claim C9: the single-file update touches only its own path -/

/-- C9: for every path `p`, given valid persisted index and fingerprint
documents, `update_single_file` changes at most the entries keyed by
`p`: every other path maps to the same `FileRecord` and the same
fingerprint before and after the call, in both documents. -/
theorem C9_thm : ∀ (fs : FS) (st : Store) (p q : String) (idx : IMap) (hsh : HMap),
    st.indexDoc = .valid idx → st.hashesDoc = .valid hsh → q ≠ p →
    ∃ (idx2 : IMap) (hsh2 : HMap),
      (update_single_file fs st p).indexDoc = .valid idx2
      ∧ (update_single_file fs st p).hashesDoc = .valid hsh2
      ∧ alookup q idx2 = alookup q idx
      ∧ alookup q hsh2 = alookup q hsh := by
  intro fs st p q idx hsh hidx hhsh hqp
  obtain ⟨i, h, hist⟩ := st
  cases hidx
  cases hhsh
  by_cases hex : pathExists fs p
  · cases hgf : get_file_hash fs p with
    | some fh =>
      cases htx : fsText fs p with
      | none =>
        exact ⟨idx, hsh,
          by simp [update_single_file, updateCore, hex, hgf, htx],
          by simp [update_single_file, updateCore, hex, hgf, htx], rfl, rfl⟩
      | some content =>
        exact ⟨dictInsert p (recordOfFile (pathSuffix p) content (fsMtime fs p)) idx,
          dictInsert p fh hsh,
          by simp [update_single_file, updateCore, hex, hgf, htx],
          by simp [update_single_file, updateCore, hex, hgf, htx],
          alookup_dictInsert_ne _ _ hqp, alookup_dictInsert_ne _ _ hqp⟩
    | none =>
      exact ⟨idx, hsh,
        by simp [update_single_file, updateCore, hex, hgf],
        by simp [update_single_file, updateCore, hex, hgf], rfl, rfl⟩
  · exact ⟨dictRemove p idx, dictRemove p hsh,
      by simp [update_single_file, updateCore, hex],
      by simp [update_single_file, updateCore, hex],
      alookup_dictRemove_ne _ hqp, alookup_dictRemove_ne _ hqp⟩

/-- C9 witness: the claim theorem applied to a concrete update that
rewrites `a.py` while `b.py` is also indexed. -/
theorem C9_witness :
    ("b.py" : String) ≠ "a.py"
    ∧ ∃ (idx2 : IMap) (hsh2 : HMap),
      (update_single_file ⟨[⟨"a.py", some [9], some "z = 3", 7⟩], []⟩
        ⟨.valid [("a.py", recordOfFile ".py" "x = 1" 0), ("b.py", recordOfFile ".py" "y = 2" 0)],
         .valid [("a.py", "h1"), ("b.py", "h2")], .absent⟩ "a.py").indexDoc = .valid idx2
      ∧ (update_single_file ⟨[⟨"a.py", some [9], some "z = 3", 7⟩], []⟩
        ⟨.valid [("a.py", recordOfFile ".py" "x = 1" 0), ("b.py", recordOfFile ".py" "y = 2" 0)],
         .valid [("a.py", "h1"), ("b.py", "h2")], .absent⟩ "a.py").hashesDoc = .valid hsh2
      ∧ alookup "b.py" idx2
          = alookup "b.py" [("a.py", recordOfFile ".py" "x = 1" 0), ("b.py", recordOfFile ".py" "y = 2" 0)]
      ∧ alookup "b.py" hsh2 = alookup "b.py" [("a.py", "h1"), ("b.py", "h2")] :=
  ⟨by decide,
   C9_thm ⟨[⟨"a.py", some [9], some "z = 3", 7⟩], []⟩
     ⟨.valid [("a.py", recordOfFile ".py" "x = 1" 0), ("b.py", recordOfFile ".py" "y = 2" 0)],
      .valid [("a.py", "h1"), ("b.py", "h2")], .absent⟩ "a.py" "b.py" _ _ rfl rfl (by decide)⟩

/-! ### Claim C6: the detail-style context block -/

/-- One per-file entry of the detail block as the claim describes it:
the path with its line count and, when the file has any extracted
declarations, at most the first 2 as previews. -/
def entryBlock (kv : String × FileRecord) : String :=
  if kv.2.functions = [] then
    "File: " ++ kv.1 ++ " (" ++ Nat.repr kv.2.lines ++ " lines)\n"
  else
    "File: " ++ kv.1 ++ " (" ++ Nat.repr kv.2.lines ++ " lines)\n" ++
    "  Functions: " ++ String.intercalate ", " (kv.2.functions.take 2) ++ "\n"

/-- The detail-style context block as the claim describes it, for an
index with more than 3 entries: header, the total indexed-file count,
exactly the first 3 entries in index-mapping order, then an explicit
count of the remaining files. -/
def detailContextSpec (idx : IMap) : String :=
  "=== PROJECT CONTEXT ===\n" ++ "Files in project: " ++ Nat.repr idx.length ++ "\n\n" ++
  strJoinMap entryBlock (idx.take 3) ++
  "... and " ++ Nat.repr (idx.length - 3) ++ " more files\n"

theorem detailContext_eq (idx : IMap) (hlen : idx.length > 3) :
    detailContext idx = detailContextSpec idx := by
  simp only [detailContext, detailContextSpec]
  rw [foldl_congr_fn _ (fun context kv => context ++ entryBlock kv) (idx.take 3)
    (by
      intro b a
      by_cases hf : a.2.functions = [] <;> simp [entryBlock, hf, String.append_assoc])
    ("=== PROJECT CONTEXT ===\n" ++ "Files in project: " ++ Nat.repr idx.length ++ "\n\n")]
  rw [foldl_strJoinMap entryBlock (idx.take 3)]
  rw [if_pos hlen]

/-- C6: for every question containing none of the keywords
files/what/list/show and every valid index mapping with more than 3
entries, `load_context` returns the context block stating the total
indexed-file count, then exactly the first 3 entries in index-mapping
order, each with its line count and at most 2 declaration-line
previews, followed by an explicit count of the remaining files — never
more than 3 per-file entries regardless of project size. -/
theorem C6_thm : ∀ (question : String) (st : Store) (idx : IMap),
    st.indexDoc = .valid idx →
    (["files", "what", "list", "show"].all
      (fun word => !(strContains (strLower question) word))) = true →
    idx.length > 3 →
    load_context question st = .ok (detailContextSpec idx) := by
  intro question st idx hidx hkw hlen
  obtain ⟨i, h, hist⟩ := st
  cases hidx
  have hany : (["files", "what", "list", "show"].any
      (fun word => strContains (strLower question) word)) = false := by
    rw [List.any_eq_false]
    intro w hw
    have := (List.all_eq_true.mp hkw) w hw
    simpa using this
  simp only [load_context, hany, Bool.false_eq_true, if_false]
  rw [detailContext_eq idx hlen]

/-- A concrete index mapping of 4 entries for the C6 witness. -/
def idxC6 : IMap :=
  [("a.py", recordOfFile ".py" "def f(): pass\ndef g(): pass\ndef h(): pass" 1),
   ("b.py", recordOfFile ".py" "x = 1" 2),
   ("c.js", recordOfFile ".js" "const f = () => 1" 3),
   ("d.md", recordOfFile ".md" "hello" 4)]

/-- C6 witness: the claim theorem applied to a 4-entry index and a
question with no listing keyword. -/
theorem C6_witness :
    (["files", "what", "list", "show"].all
      (fun word => !(strContains (strLower "explain the indexing") word))) = true
    ∧ idxC6.length > 3
    ∧ load_context "explain the indexing" ⟨.valid idxC6, .absent, .absent⟩
        = .ok (detailContextSpec idxC6) :=
  ⟨by decide, by decide,
   C6_thm "explain the indexing" ⟨.valid idxC6, .absent, .absent⟩ idxC6 rfl
     (by decide) (by decide)⟩

/-! ### Claim C5: the Change Detector decision -/

/-- The claim's rescan condition: some walked supported-type file whose
current fingerprint differs from, or is absent in, the persisted
mapping, or some previously persisted path that no longer exists on
disk. -/
def rescanCondition (fs : FS) (old_hashes : HMap) : Prop :=
  (∃ e ∈ fs.files, isCodeFile e.path = true ∧
    (alookup e.path old_hashes = none ∨ alookup e.path old_hashes ≠ e.bytes.map md5hex))
  ∨ (∃ kv ∈ old_hashes, pathExists fs kv.1 = false)

/-- C5: with no persisted fingerprint mapping, `check_for_changes`
rescans unconditionally; with a valid persisted mapping it rescans
exactly when the rescan condition holds, and changes nothing when it
does not. -/
theorem C5_thm : ∀ (fs : FS) (st : Store) (old_hashes : HMap),
    (st.hashesDoc = .absent →
      check_for_changes fs st = (scan_codebase fs st).map (fun s => (s, true)))
    ∧ (changes_found fs old_hashes = true ↔ rescanCondition fs old_hashes)
    ∧ (st.hashesDoc = .valid old_hashes → changes_found fs old_hashes = true →
      check_for_changes fs st = (scan_codebase fs st).map (fun s => (s, true)))
    ∧ (st.hashesDoc = .valid old_hashes → changes_found fs old_hashes = false →
      check_for_changes fs st = .ok (st, false)) := by
  intro fs st old_hashes
  refine ⟨?_, ?_, ?_, ?_⟩
  · intro habs
    obtain ⟨i, h, hist⟩ := st
    cases habs
    rfl
  · simp [changes_found, rescanCondition, List.any_eq_true,
      Option.isNone_iff_eq_none, Bool.not_eq_true']
  · intro hv hc
    obtain ⟨i, h, hist⟩ := st
    cases hv
    simp [check_for_changes, hc]
  · intro hv hc
    obtain ⟨i, h, hist⟩ := st
    cases hv
    simp [check_for_changes, hc]

/-- C5 witness: the claim theorem applied to concrete stores — an
absent mapping, a mapping missing a walked file (rescan), and a mapping
in agreement with an empty tree (no action). -/
theorem C5_witness :
    check_for_changes ⟨[], []⟩ ⟨.absent, .absent, .absent⟩
      = (scan_codebase ⟨[], []⟩ ⟨.absent, .absent, .absent⟩).map (fun s => (s, true))
    ∧ changes_found ⟨[⟨"n.py", some [1], some "n", 0⟩], []⟩ [] = true
    ∧ check_for_changes ⟨[⟨"n.py", some [1], some "n", 0⟩], []⟩ ⟨.absent, .valid [], .absent⟩
      = (scan_codebase ⟨[⟨"n.py", some [1], some "n", 0⟩], []⟩
          ⟨.absent, .valid [], .absent⟩).map (fun s => (s, true))
    ∧ changes_found ⟨[], []⟩ [] = false
    ∧ check_for_changes ⟨[], []⟩ ⟨.absent, .valid [], .absent⟩
      = .ok (⟨.absent, .valid [], .absent⟩, false) :=
  ⟨(C5_thm ⟨[], []⟩ ⟨.absent, .absent, .absent⟩ []).1 rfl,
   by decide,
   (C5_thm ⟨[⟨"n.py", some [1], some "n", 0⟩], []⟩ ⟨.absent, .valid [], .absent⟩ []).2.2.1
     rfl (by decide),
   by decide,
   (C5_thm ⟨[], []⟩ ⟨.absent, .valid [], .absent⟩ []).2.2.2 rfl (by decide)⟩

/-! ### Claims C1 and C3: what a full rescan writes -/

/-- The FileRecord the prior scan stored for `a.py` in the C1 scenario. -/
def recC1 : FileRecord := recordOfFile ".py" "x = 1" 5

/-- The walked tree of the C1 scenario: one supported file, unchanged. -/
def fsC1 : FS := ⟨[⟨"a.py", some [120], some "x = 1", 5⟩], []⟩

/-- The persisted documents of the C1 scenario: the prior rescan's
index record and fingerprint for `a.py`. -/
def stC1 : Store := ⟨.valid [("a.py", recC1)], .valid [("a.py", md5hex [120])], .absent⟩

/-- C1, evaluated at the failing input: with one supported file whose
fingerprint matches the persisted one, the change detector itself
reports no change, yet a full rescan persists an empty index document —
the unchanged file's FileRecord is dropped, not retained, so the new
Index Store is not byte-for-byte identical to the prior one.  The skip
path of `scan_codebase` (src/ai_assistant.py:165-166) `continue`s
without copying the old record into the freshly built index. -/
theorem C1_code_eval :
    scan_codebase fsC1 stC1 = .ok ⟨.valid [], .valid [("a.py", md5hex [120])], .absent⟩
    ∧ stC1.indexDoc = .valid [("a.py", recC1)]
    ∧ StoredDoc.valid ([] : IMap) ≠ .valid [("a.py", recC1)]
    ∧ changes_found fsC1 [("a.py", md5hex [120])] = false :=
  ⟨rfl, rfl, by decide, by decide⟩

/-- The walked tree of the C3 counterexample scenario. -/
def fsC3 : FS := ⟨[⟨"b.py", some [98], some "y = 2", 9⟩], []⟩

/-- The persisted documents of the C3 counterexample scenario. -/
def stC3 : Store :=
  ⟨.valid [("b.py", recordOfFile ".py" "y = 2" 9)], .valid [("b.py", md5hex [98])], .absent⟩

/-- C3 counterexample: after a full rescan over an unchanged tree, the
fingerprint mapping still holds the file's path but the index mapping
does not — the two mappings do not have the same set of path keys. -/
theorem C3_counterexample :
    scan_codebase fsC3 stC3 = .ok ⟨.valid [], .valid [("b.py", md5hex [98])], .absent⟩
    ∧ (alookup "b.py" ([] : IMap)).isSome = false
    ∧ (alookup "b.py" [("b.py", md5hex [98])]).isSome = true :=
  ⟨rfl, rfl, rfl⟩

/-- Every key of the first mapping is a key of the second. -/
def keysSubset (idx : IMap) (hsh : HMap) : Prop :=
  ∀ p, (alookup p idx).isSome = true → (alookup p hsh).isSome = true

/-- The two mappings have the same key set. -/
def keyEq (idx : IMap) (hsh : HMap) : Prop :=
  ∀ p, (alookup p idx).isSome = (alookup p hsh).isSome

/-- Every record in the index mapping was computed from the text of the
walked file at its path, and the fingerprint mapping holds exactly the
digest of that same file's bytes. -/
def recordConsistent (fs : FS) (idx : IMap) (hsh : HMap) : Prop :=
  ∀ p r, alookup p idx = some r → ∃ e, fsFind fs p = some e ∧
    ∃ (b : List Nat) (content : String), e.bytes = some b ∧ e.text = some content
      ∧ r = recordOfFile (pathSuffix p) content e.mtime
      ∧ alookup p hsh = some (md5hex b)

theorem isSome_alookup_dictRemove {α : Type} (q k : String) (d : List (String × α)) :
    (alookup q (dictRemove k d)).isSome = (if q = k then false else (alookup q d).isSome) := by
  by_cases h : q = k
  · subst h; simp [alookup_dictRemove_self]
  · rw [if_neg h, alookup_dictRemove_ne d h]

theorem keysSubset_insert_right (idx : IMap) (hsh : HMap) (k v : String)
    (h : keysSubset idx hsh) : keysSubset idx (dictInsert k v hsh) := by
  intro p hp
  rw [isSome_alookup_dictInsert]
  by_cases hpk : p = k
  · rw [if_pos hpk]
  · rw [if_neg hpk]
    exact h p hp

theorem keysSubset_insert_both (idx : IMap) (hsh : HMap) (k : String) (r : FileRecord)
    (v : String) (h : keysSubset idx hsh) :
    keysSubset (dictInsert k r idx) (dictInsert k v hsh) := by
  intro p hp
  rw [isSome_alookup_dictInsert] at hp ⊢
  by_cases hpk : p = k
  · rw [if_pos hpk]
  · rw [if_neg hpk] at hp ⊢
    exact h p hp

theorem find?_path_eq : ∀ (l : List FSEntry), (l.map FSEntry.path).Nodup →
    ∀ e ∈ l, l.find? (fun x => x.path == e.path) = some e := by
  intro l
  induction l with
  | nil => intro _ e he; cases he
  | cons x t ih =>
    intro hnd e he
    have hnd2 : (∀ y ∈ t, ¬ y.path = x.path) ∧ (t.map FSEntry.path).Nodup := by
      simpa using hnd
    rcases List.mem_cons.mp he with he | he
    · subst he
      exact List.find?_cons_of_pos _ (by simp)
    · have hx : ¬ ((fun y => y.path == e.path) x = true) := by
        simp only [beq_iff_eq]
        intro heq
        exact hnd2.1 e he heq.symm
      rw [show List.find? (fun y => y.path == e.path) (x :: t)
          = List.find? (fun y => y.path == e.path) t from List.find?_cons_of_neg t hx]
      exact ih hnd2.2 e he

/-! Case equations for one step of the scan loop. -/

theorem scanStep_not_code (old : HMap) (acc : IMap × HMap) (e : FSEntry)
    (hc : ¬ isCodeFile e.path = true) : scanStep old acc e = acc := by
  simp [scanStep, hc]

theorem scanStep_no_bytes (old : HMap) (acc : IMap × HMap) (e : FSEntry)
    (hc : isCodeFile e.path = true) (hb : e.bytes = none) : scanStep old acc e = acc := by
  simp [scanStep, hc, hb]

theorem scanStep_skip (old : HMap) (acc : IMap × HMap) (e : FSEntry) (b : List Nat)
    (hc : isCodeFile e.path = true) (hb : e.bytes = some b)
    (hskip : alookup e.path old = some (md5hex b)) :
    scanStep old acc e = (acc.1, dictInsert e.path (md5hex b) acc.2) := by
  simp [scanStep, hc, hb, hskip]

theorem scanStep_text_fail (old : HMap) (acc : IMap × HMap) (e : FSEntry) (b : List Nat)
    (hc : isCodeFile e.path = true) (hb : e.bytes = some b)
    (hskip : ¬ alookup e.path old = some (md5hex b)) (ht : e.text = none) :
    scanStep old acc e = (acc.1, dictInsert e.path (md5hex b) acc.2) := by
  simp [scanStep, hc, hb, hskip, ht]

theorem scanStep_index (old : HMap) (acc : IMap × HMap) (e : FSEntry) (b : List Nat)
    (content : String) (hc : isCodeFile e.path = true) (hb : e.bytes = some b)
    (hskip : ¬ alookup e.path old = some (md5hex b)) (ht : e.text = some content) :
    scanStep old acc e
      = (dictInsert e.path (recordOfFile (pathSuffix e.path) content e.mtime) acc.1,
         dictInsert e.path (md5hex b) acc.2) := by
  simp [scanStep, hc, hb, hskip, ht]

/-- One scan step never touches entries keyed by other paths. -/
theorem scanStep_frame (old : HMap) (acc : IMap × HMap) (e : FSEntry) (q : String)
    (hq : ¬ q = e.path) :
    alookup q (scanStep old acc e).1 = alookup q acc.1
    ∧ alookup q (scanStep old acc e).2 = alookup q acc.2 := by
  by_cases hc : isCodeFile e.path = true
  · cases hb : e.bytes with
    | none =>
      rw [scanStep_no_bytes old acc e hc hb]
      exact ⟨rfl, rfl⟩
    | some b =>
      by_cases hskip : alookup e.path old = some (md5hex b)
      · rw [scanStep_skip old acc e b hc hb hskip]
        exact ⟨rfl, alookup_dictInsert_ne _ _ hq⟩
      · cases ht : e.text with
        | none =>
          rw [scanStep_text_fail old acc e b hc hb hskip ht]
          exact ⟨rfl, alookup_dictInsert_ne _ _ hq⟩
        | some content =>
          rw [scanStep_index old acc e b content hc hb hskip ht]
          exact ⟨alookup_dictInsert_ne _ _ hq, alookup_dictInsert_ne _ _ hq⟩
  · rw [scanStep_not_code old acc e hc]
    exact ⟨rfl, rfl⟩

/-- One scan step preserves the amended invariant, provided the walked
entry resolves to itself and its path is fresh in the index built so
far. -/
theorem scanStep_inv (fs : FS) (old : HMap) (acc : IMap × HMap) (e : FSEntry)
    (hfind : fsFind fs e.path = some e)
    (hfr1 : alookup e.path acc.1 = none)
    (hks : keysSubset acc.1 acc.2)
    (hrc : recordConsistent fs acc.1 acc.2) :
    keysSubset (scanStep old acc e).1 (scanStep old acc e).2
    ∧ recordConsistent fs (scanStep old acc e).1 (scanStep old acc e).2 := by
  by_cases hc : isCodeFile e.path = true
  · cases hb : e.bytes with
    | none =>
      rw [scanStep_no_bytes old acc e hc hb]
      exact ⟨hks, hrc⟩
    | some b =>
      have hash_only : keysSubset acc.1 (dictInsert e.path (md5hex b) acc.2)
          ∧ recordConsistent fs acc.1 (dictInsert e.path (md5hex b) acc.2) := by
        refine ⟨keysSubset_insert_right _ _ _ _ hks, ?_⟩
        intro p r hp
        have hpne : ¬ p = e.path := by
          intro hpe
          rw [hpe, hfr1] at hp
          cases hp
        rcases hrc p r hp with ⟨e0, hfind0, b0, c0, hb0, hc0, hr0, hh0⟩
        exact ⟨e0, hfind0, b0, c0, hb0, hc0, hr0,
          by rw [alookup_dictInsert_ne _ _ hpne]; exact hh0⟩
      by_cases hskip : alookup e.path old = some (md5hex b)
      · rw [scanStep_skip old acc e b hc hb hskip]
        exact hash_only
      · cases ht : e.text with
        | none =>
          rw [scanStep_text_fail old acc e b hc hb hskip ht]
          exact hash_only
        | some content =>
          rw [scanStep_index old acc e b content hc hb hskip ht]
          constructor
          · exact keysSubset_insert_both _ _ _ _ _ hks
          · intro p r hp
            by_cases hpe : p = e.path
            · subst hpe
              rw [alookup_dictInsert_self] at hp
              injection hp with hr
              exact ⟨e, hfind, b, content, hb, ht, hr.symm, by rw [alookup_dictInsert_self]⟩
            · rw [alookup_dictInsert_ne _ _ hpe] at hp
              rcases hrc p r hp with ⟨e0, hfind0, b0, c0, hb0, hc0, hr0, hh0⟩
              exact ⟨e0, hfind0, b0, c0, hb0, hc0, hr0,
                by rw [alookup_dictInsert_ne _ _ hpe]; exact hh0⟩
  · rw [scanStep_not_code old acc e hc]
    exact ⟨hks, hrc⟩

/-- The scan loop preserves the amended invariant along the whole walk. -/
theorem scanFold_inv (fs : FS) (old : HMap) :
    ∀ (l : List FSEntry) (acc : IMap × HMap),
      (∀ e ∈ l, fsFind fs e.path = some e) →
      (∀ e ∈ l, alookup e.path acc.1 = none ∧ alookup e.path acc.2 = none) →
      (l.map FSEntry.path).Nodup →
      keysSubset acc.1 acc.2 →
      recordConsistent fs acc.1 acc.2 →
      keysSubset (l.foldl (scanStep old) acc).1 (l.foldl (scanStep old) acc).2
      ∧ recordConsistent fs (l.foldl (scanStep old) acc).1 (l.foldl (scanStep old) acc).2 := by
  intro l
  induction l with
  | nil =>
    intro acc _ _ _ hks hrc
    exact ⟨hks, hrc⟩
  | cons e t ih =>
    intro acc hfind hfresh hnd hks hrc
    have hnd2 : (∀ y ∈ t, ¬ y.path = e.path) ∧ (t.map FSEntry.path).Nodup := by
      simpa using hnd
    have hfresh_e := hfresh e (List.mem_cons_self e t)
    have hstep := scanStep_inv fs old acc e (hfind e (List.mem_cons_self e t))
      hfresh_e.1 hks hrc
    rw [List.foldl_cons]
    apply ih
    · intro e' he'
      exact hfind e' (List.mem_cons_of_mem e he')
    · intro e' he'
      have hq : ¬ e'.path = e.path := hnd2.1 e' he'
      have hframe := scanStep_frame old acc e e'.path hq
      have h0 := hfresh e' (List.mem_cons_of_mem e he')
      exact ⟨hframe.1.trans h0.1, hframe.2.trans h0.2⟩
    · exact hnd2.2
    · exact hstep.1
    · exact hstep.2

theorem scan_inv (fs : FS) (st st' : Store)
    (hnd : (fs.files.map FSEntry.path).Nodup)
    (hscan : scan_codebase fs st = .ok st') :
    ∃ (idx : IMap) (hsh : HMap), st'.indexDoc = .valid idx ∧ st'.hashesDoc = .valid hsh
      ∧ keysSubset idx hsh ∧ recordConsistent fs idx hsh := by
  have hmain : ∀ old : HMap,
      keysSubset (fs.files.foldl (scanStep old) ([], [])).1
        (fs.files.foldl (scanStep old) ([], [])).2
      ∧ recordConsistent fs (fs.files.foldl (scanStep old) ([], [])).1
        (fs.files.foldl (scanStep old) ([], [])).2 := by
    intro old
    apply scanFold_inv fs old fs.files ([], [])
    · intro e he
      exact find?_path_eq fs.files hnd e he
    · intro e _
      exact ⟨rfl, rfl⟩
    · exact hnd
    · intro p hp
      cases hp
    · intro p r hp
      cases hp
  obtain ⟨i, h, hist⟩ := st
  cases h with
  | malformed => cases hscan
  | absent =>
    cases hscan
    exact ⟨_, _, rfl, rfl, (hmain []).1, (hmain []).2⟩
  | valid old =>
    cases hscan
    exact ⟨_, _, rfl, rfl, (hmain old).1, (hmain old).2⟩

theorem update_keyEq (fs : FS) (st : Store) (p : String) (idx : IMap) (hsh : HMap)
    (hidx : st.indexDoc = .valid idx) (hhsh : st.hashesDoc = .valid hsh)
    (hkeq : keyEq idx hsh) :
    ∃ (idx2 : IMap) (hsh2 : HMap),
      (update_single_file fs st p).indexDoc = .valid idx2
      ∧ (update_single_file fs st p).hashesDoc = .valid hsh2
      ∧ keyEq idx2 hsh2 := by
  obtain ⟨i, h, hist⟩ := st
  cases hidx
  cases hhsh
  by_cases hex : pathExists fs p
  · cases hgf : get_file_hash fs p with
    | some fh =>
      cases htx : fsText fs p with
      | none =>
        exact ⟨idx, hsh,
          by simp [update_single_file, updateCore, hex, hgf, htx],
          by simp [update_single_file, updateCore, hex, hgf, htx], hkeq⟩
      | some content =>
        refine ⟨dictInsert p (recordOfFile (pathSuffix p) content (fsMtime fs p)) idx,
          dictInsert p fh hsh,
          by simp [update_single_file, updateCore, hex, hgf, htx],
          by simp [update_single_file, updateCore, hex, hgf, htx], ?_⟩
        intro q
        rw [isSome_alookup_dictInsert, isSome_alookup_dictInsert]
        by_cases hqp : q = p
        · rw [if_pos hqp, if_pos hqp]
        · rw [if_neg hqp, if_neg hqp]
          exact hkeq q
    | none =>
      exact ⟨idx, hsh,
        by simp [update_single_file, updateCore, hex, hgf],
        by simp [update_single_file, updateCore, hex, hgf], hkeq⟩
  · refine ⟨dictRemove p idx, dictRemove p hsh,
      by simp [update_single_file, updateCore, hex],
      by simp [update_single_file, updateCore, hex], ?_⟩
    intro q
    rw [isSome_alookup_dictRemove, isSome_alookup_dictRemove]
    by_cases hqp : q = p
    · rw [if_pos hqp, if_pos hqp]
    · rw [if_neg hqp, if_neg hqp]
      exact hkeq q

theorem remove_keyEq (st : Store) (p : String) (idx : IMap) (hsh : HMap)
    (hidx : st.indexDoc = .valid idx) (hhsh : st.hashesDoc = .valid hsh)
    (hkeq : keyEq idx hsh) :
    ∃ (idx2 : IMap) (hsh2 : HMap),
      (remove_from_index st p).indexDoc = .valid idx2
      ∧ (remove_from_index st p).hashesDoc = .valid hsh2
      ∧ keyEq idx2 hsh2 := by
  obtain ⟨i, h, hist⟩ := st
  cases hidx
  cases hhsh
  refine ⟨dictRemove p idx, dictRemove p hsh, rfl, rfl, ?_⟩
  intro q
  rw [isSome_alookup_dictRemove, isSome_alookup_dictRemove]
  by_cases hqp : q = p
  · rw [if_pos hqp, if_pos hqp]
  · rw [if_neg hqp, if_neg hqp]
    exact hkeq q

/-- C3 (amended): after a successful full rescan (over a walk without
duplicate paths), the new index mapping's keys form a subset of the new
fingerprint mapping's keys — unchanged files and files whose text read
fails keep a fingerprint but get no FileRecord, so the key sets can
differ — and for every path present in the new index mapping the stored
fingerprint is the digest of exactly the bytes of the same walked file
from which that FileRecord was computed; single-file update and removal
preserve key-set equality of the two mappings. -/
theorem C3_amended_thm :
    (∀ (fs : FS) (st st' : Store), (fs.files.map FSEntry.path).Nodup →
      scan_codebase fs st = .ok st' →
      ∃ (idx : IMap) (hsh : HMap), st'.indexDoc = .valid idx ∧ st'.hashesDoc = .valid hsh
        ∧ keysSubset idx hsh ∧ recordConsistent fs idx hsh)
    ∧ (∀ (fs : FS) (st : Store) (p : String) (idx : IMap) (hsh : HMap),
        st.indexDoc = .valid idx → st.hashesDoc = .valid hsh → keyEq idx hsh →
        ∃ (idx2 : IMap) (hsh2 : HMap),
          (update_single_file fs st p).indexDoc = .valid idx2
          ∧ (update_single_file fs st p).hashesDoc = .valid hsh2
          ∧ keyEq idx2 hsh2)
    ∧ (∀ (st : Store) (p : String) (idx : IMap) (hsh : HMap),
        st.indexDoc = .valid idx → st.hashesDoc = .valid hsh → keyEq idx hsh →
        ∃ (idx2 : IMap) (hsh2 : HMap),
          (remove_from_index st p).indexDoc = .valid idx2
          ∧ (remove_from_index st p).hashesDoc = .valid hsh2
          ∧ keyEq idx2 hsh2) :=
  ⟨scan_inv, update_keyEq, remove_keyEq⟩

/-- C3 amended-claim witness: the three parts of the theorem applied at
concrete stores. -/
theorem C3_amended_witness :
    ((⟨[⟨"c.py", some [3], some "z = 9", 2⟩], []⟩ : FS).files.map FSEntry.path).Nodup
    ∧ scan_codebase ⟨[⟨"c.py", some [3], some "z = 9", 2⟩], []⟩
        ⟨.valid [("c.py", recordOfFile ".py" "z = 9" 2)], .valid [("c.py", md5hex [3])], .absent⟩
        = .ok ⟨.valid [], .valid [("c.py", md5hex [3])], .absent⟩
    ∧ (∃ (idx : IMap) (hsh : HMap),
        (⟨.valid [], .valid [("c.py", md5hex [3])], .absent⟩ : Store).indexDoc = .valid idx
        ∧ (⟨.valid [], .valid [("c.py", md5hex [3])], .absent⟩ : Store).hashesDoc = .valid hsh
        ∧ keysSubset idx hsh ∧ recordConsistent ⟨[⟨"c.py", some [3], some "z = 9", 2⟩], []⟩ idx hsh)
    ∧ (∃ (idx2 : IMap) (hsh2 : HMap),
        (update_single_file ⟨[⟨"c.py", some [3], some "z = 9", 2⟩], []⟩
          ⟨.valid [], .valid [], .absent⟩ "c.py").indexDoc = .valid idx2
        ∧ (update_single_file ⟨[⟨"c.py", some [3], some "z = 9", 2⟩], []⟩
            ⟨.valid [], .valid [], .absent⟩ "c.py").hashesDoc = .valid hsh2
        ∧ keyEq idx2 hsh2)
    ∧ (∃ (idx2 : IMap) (hsh2 : HMap),
        (remove_from_index ⟨.valid [], .valid [], .absent⟩ "c.py").indexDoc = .valid idx2
        ∧ (remove_from_index ⟨.valid [], .valid [], .absent⟩ "c.py").hashesDoc = .valid hsh2
        ∧ keyEq idx2 hsh2) := by
  refine ⟨by decide, rfl, ?_, ?_, ?_⟩
  · exact C3_amended_thm.1 ⟨[⟨"c.py", some [3], some "z = 9", 2⟩], []⟩
      ⟨.valid [("c.py", recordOfFile ".py" "z = 9" 2)], .valid [("c.py", md5hex [3])], .absent⟩
      ⟨.valid [], .valid [("c.py", md5hex [3])], .absent⟩ (by decide) rfl
  · exact C3_amended_thm.2.1 ⟨[⟨"c.py", some [3], some "z = 9", 2⟩], []⟩
      ⟨.valid [], .valid [], .absent⟩ "c.py" [] [] rfl rfl (fun _ => rfl)
  · exact C3_amended_thm.2.2 ⟨.valid [], .valid [], .absent⟩ "c.py" [] [] rfl rfl
      (fun _ => rfl)

end SmartContext
